import Mathlib

/-!
Verification of the GitHub aggregation/synchronization core of the OSDC bot.

The definitions below are a shallow embedding of the Python sources:
  * `cogs/github_feed.py`   — the per-repository event-feed poll step,
  * `utils/github_api.py`   — the `fetch_user_stats` aggregator,
  * `cogs/roles.py`         — ranking and role reconciliation.

Network calls are modelled by passing their results in explicitly; a call
that may raise is modelled as an `Except String` value.
-/

namespace OSDCBot

/-! ### Feed polling (`cogs/github_feed.py`, `feed_loop`) -/

/-- A GitHub event as consumed by `feed_loop`: only its `"id"` field matters
for de-duplication. -/
structure Event where
  id : String
  deriving DecidableEq, Repr

/-- Python truthiness of the value `last_event_ids.get(repo)`: `None` and the
empty string are falsy, any other string is truthy. -/
def strTruthy : Option String → Bool
  | none => false
  | some s => s ≠ ""

/-- The loop
`for event in events: if last_event_id and event["id"] == last_event_id: break; new_events.append(event)`
from `feed_loop`: walk the newest-first list, collecting events until one
matches the (truthy) stored watermark. -/
def collect_new_events (last_event_id : Option String) : List Event → List Event
  | [] => []
  | e :: es =>
    if strTruthy last_event_id ∧ some e.id = last_event_id then []
    else e :: collect_new_events last_event_id es

/-- One iteration of the per-repository body of `feed_loop`, for a repository
with subscriber set `subscribers`, stored watermark `last_event_id`, and fetch
outcome `fetched` (`none` models a failed request, which
`fetch_repo_events` turns into `[]` via `data or []`; the surrounding
`try/except` also leaves the watermark untouched on failure).
Returns the list of events posted to the channel, in posting order
(`reversed(new_events)`), together with the watermark stored afterwards. -/
def feed_repo_step (subscribers : List Nat) (last_event_id : Option String)
    (fetched : Option (List Event)) : List Event × Option String :=
  if subscribers.isEmpty then ([], last_event_id)
  else
    match fetched with
    | none => ([], last_event_id)
    | some [] => ([], last_event_id)
    | some (e :: es) =>
      ((collect_new_events last_event_id (e :: es)).reverse, some e.id)

theorem collect_new_events_none (events : List Event) :
    collect_new_events none events = events := by
  induction events with
  | nil => rfl
  | cons e es ih => simp [collect_new_events, strTruthy, ih]

theorem collect_new_events_take {w : String} (hw : w ≠ "") :
    ∀ (events : List Event) (k : ℕ), (∀ e ∈ events.take k, e.id ≠ w) →
      ∀ (hk : k < events.length), (events.get ⟨k, hk⟩).id = w →
      collect_new_events (some w) events = events.take k
  | [], k, _, hk, _ => absurd hk (by simp)
  | e :: es, 0, _, _, hid => by
      simp only [List.get] at hid
      simp [collect_new_events, strTruthy, hw, hid]
  | e :: es, k + 1, hbefore, hk, hid => by
      have he : e.id ≠ w := hbefore e (by simp)
      have ih := collect_new_events_take hw es k
        (fun x hx => hbefore x (by simp [List.take, hx]))
        (by simpa using Nat.lt_of_succ_lt_succ hk)
        (by simpa using hid)
      simp [collect_new_events, strTruthy, hw, he, ih, List.take]

/-- C1 — the de-duplication claim as stated is false on the code: Python's
`if last_event_id and ...` treats the empty-string watermark as absent, so
with stored watermark `""` and a poll whose list holds an event with id `""`
at position 0, the claim demands that exactly the events at positions
`[0, 0)` (none) be reported, yet the code reports the whole list. -/
theorem feed_dedup_empty_watermark_cex :
    ¬ ((feed_repo_step [7] (some "") (some [Event.mk ""])).1
        = (([Event.mk ""].take 0).reverse : List Event)) := by
  decide

/-- C1 (amended) — de-duplication of the poll emission: for a repository with
at least one subscriber and a previously stored non-empty watermark `w`, if
the newest-first fetched list holds an event with id `w` first at position
`k`, the poll posts exactly the events at positions `[0, k)`, in oldest-first
(reversed) order. -/
theorem feed_dedup_emits_new_events (subs : List Nat) (u : Nat) (w : String)
    (events : List Event) (k : ℕ) (hw : w ≠ "")
    (hbefore : ∀ e ∈ events.take k, e.id ≠ w) (hk : k < events.length)
    (hat : (events.get ⟨k, hk⟩).id = w) :
    (feed_repo_step (u :: subs) (some w) (some events)).1 = (events.take k).reverse := by
  match events, hk with
  | e :: es, hk =>
    show (collect_new_events (some w) (e :: es)).reverse = ((e :: es).take k).reverse
    rw [collect_new_events_take hw (e :: es) k hbefore hk hat]

/-- C1 (witness) — the spec's scenario: watermark `"E100"`, poll returns
`["E105","E104","E100","E99"]` newest-first; the bot posts `["E104","E105"]`
in that order. -/
theorem feed_dedup_emits_new_events_witness :
    (feed_repo_step [7] (some "E100")
        (some [Event.mk "E105", Event.mk "E104", Event.mk "E100", Event.mk "E99"])).1
      = [Event.mk "E104", Event.mk "E105"] := by
  have h := feed_dedup_emits_new_events [] 7 "E100"
    [Event.mk "E105", Event.mk "E104", Event.mk "E100", Event.mk "E99"] 2
    (by decide) (by decide) (by decide) (by decide)
  simpa using h

/-- C2 — watermark advancement: after a poll of a subscribed repository whose
fetch returns a non-empty list, the stored `last_event_id` becomes the id of
the newest event (index 0); when the fetch fails, returns an empty list, or
the repository has no subscribers, the watermark is unchanged. -/
theorem feed_watermark_advancement (subs : List Nat) (u : Nat)
    (last_event_id : Option String) (fetched : Option (List Event))
    (e : Event) (es : List Event) :
    (feed_repo_step (u :: subs) last_event_id (some (e :: es))).2 = some e.id ∧
    (feed_repo_step subs last_event_id none).2 = last_event_id ∧
    (feed_repo_step subs last_event_id (some [])).2 = last_event_id ∧
    (feed_repo_step [] last_event_id fetched).2 = last_event_id := by
  refine ⟨rfl, ?_, ?_, ?_⟩
  · cases subs <;> rfl
  · cases subs <;> rfl
  · rfl

/-- C3 — cold start: with no previously stored watermark, a poll of a
subscribed repository treats every fetched event as new and posts all of
them, oldest-first. -/
theorem feed_cold_start_emits_all (u : Nat) (subs : List Nat) (events : List Event) :
    (feed_repo_step (u :: subs) none (some events)).1 = events.reverse ∧
    (feed_repo_step (u :: subs) none (some events)).1.length = events.length := by
  have h : (feed_repo_step (u :: subs) none (some events)).1 = events.reverse := by
    match events with
    | [] => rfl
    | e :: es =>
      show (collect_new_events none (e :: es)).reverse = (e :: es).reverse
      rw [collect_new_events_none]
  exact ⟨h, by rw [h, List.length_reverse]⟩

/-! ### Stats aggregation (`utils/github_api.py`, `fetch_user_stats`) -/

/-- The decoded profile object returned by `fetch_user_info`; the aggregator
only checks its truthiness and embeds it whole, so one field suffices. -/
structure UserProfile where
  login : String
  deriving DecidableEq, Repr

/-- A repository object; `fetch_user_stats` reads only
`repo.get("stargazers_count", 0)`, so the field is optional with default 0. -/
structure Repo where
  stargazers_count : Option Nat
  deriving DecidableEq, Repr

/-- The value `repo.get("stargazers_count", 0)`. -/
def repoStars (r : Repo) : Nat := r.stargazers_count.getD 0

/-- The dictionary assembled by `fetch_user_stats`; absent keys are `none`
(the error records built by the not-found branch and the `except` handler
carry only `username` and `error`). The `updated_at` wall-clock field is
outside the model. -/
structure StatsRecord where
  username : String
  user_info : Option UserProfile := none
  total_stars : Option Nat := none
  total_repos : Option Nat := none
  merged_prs : Option Nat := none
  issues_opened : Option Nat := none
  repositories : Option (List Repo) := none
  error : Option String := none
  deriving DecidableEq, Repr

/-- The record `{"username": username, "error": err}` produced by the
not-found branch and by the `except` handler of `fetch_user_stats`. -/
def error_record (username err : String) : StatsRecord :=
  { username := username, error := some err }

/-- Results of the four network calls `fetch_user_stats` makes, in call
order. `Except.error e` models the call raising an exception `e` (caught by
the surrounding `try`); for `fetch_user_info`, `Except.ok none` models the
falsy `{}` that `_make_request` failures are mapped to by `data or {}`. -/
structure FetchOutcomes where
  user_info : Except String (Option UserProfile)
  repos : Except String (List Repo)
  merged_prs : Except String Nat
  issues_opened : Except String Nat

/-- Embedding of `GitHubAPI.fetch_user_stats`: profile lookup with not-found early return,
repo-list fetch, star summation, the two search counts, record assembly;
every exception along the way is caught and turned into an error record. -/
def fetch_user_stats (username : String) (calls : FetchOutcomes) : StatsRecord :=
  match calls.user_info with
  | Except.error e => error_record username e
  | Except.ok none => error_record username "User not found"
  | Except.ok (some info) =>
    match calls.repos with
    | Except.error e => error_record username e
    | Except.ok repos =>
      match calls.merged_prs with
      | Except.error e => error_record username e
      | Except.ok merged =>
        match calls.issues_opened with
        | Except.error e => error_record username e
        | Except.ok issues =>
          { username := username
            user_info := some info
            total_stars := some ((repos.map repoStars).sum)
            total_repos := some repos.length
            merged_prs := some merged
            issues_opened := some issues
            repositories := some repos
            error := none }

/-- C4 — total error containment: `fetch_user_stats` always returns a record
carrying the queried username; the result is either an error record or a
fully populated success record; a falsy profile lookup yields the
"User not found" error record; and an exception in any of the four steps is
converted into an error record carrying that exception's message. -/
theorem fetch_user_stats_error_containment (u : String) (o : FetchOutcomes)
    (e : String) (info : UserProfile) (rs : List Repo) (m : Nat) :
    (fetch_user_stats u o).username = u
    ∧ ((∃ msg, fetch_user_stats u o = error_record u msg)
        ∨ ((fetch_user_stats u o).error = none
            ∧ (fetch_user_stats u o).total_stars.isSome
            ∧ (fetch_user_stats u o).total_repos.isSome))
    ∧ fetch_user_stats u { o with user_info := Except.ok none }
        = error_record u "User not found"
    ∧ fetch_user_stats u { o with user_info := Except.error e } = error_record u e
    ∧ fetch_user_stats u
        { o with user_info := Except.ok (some info), repos := Except.error e }
        = error_record u e
    ∧ fetch_user_stats u
        { o with user_info := Except.ok (some info), repos := Except.ok rs,
                 merged_prs := Except.error e }
        = error_record u e
    ∧ fetch_user_stats u
        { o with user_info := Except.ok (some info), repos := Except.ok rs,
                 merged_prs := Except.ok m, issues_opened := Except.error e }
        = error_record u e := by
  obtain ⟨ui, rp, mp, iss⟩ := o
  refine ⟨?_, ?_, rfl, rfl, rfl, rfl, rfl⟩
  · rcases ui with e1 | oi
    · rfl
    · rcases oi with _ | i1
      · rfl
      · rcases rp with e2 | rs1
        · rfl
        · rcases mp with e3 | m1
          · rfl
          · rcases iss with e4 | i4 <;> rfl
  · rcases ui with e1 | oi
    · exact Or.inl ⟨e1, rfl⟩
    · rcases oi with _ | i1
      · exact Or.inl ⟨"User not found", rfl⟩
      · rcases rp with e2 | rs1
        · exact Or.inl ⟨e2, rfl⟩
        · rcases mp with e3 | m1
          · exact Or.inl ⟨e3, rfl⟩
          · rcases iss with e4 | i4
            · exact Or.inl ⟨e4, rfl⟩
            · exact Or.inr ⟨rfl, rfl, rfl⟩

/-- C9 — snapshot sums: on a successful aggregation over repo list `rs`,
`total_stars` is the sum of the per-repo star counts of `rs`, `total_repos`
is the length of `rs`, and the embedded `repositories` field is that same
single snapshot `rs`; moreover `total_stars` is invariant under any
permutation of the fetched repository list. -/
theorem fetch_user_stats_snapshot_sums (u : String) (info : UserProfile)
    (rs rs' : List Repo) (m n : Nat) (hperm : rs.Perm rs') :
    (fetch_user_stats u
        ⟨Except.ok (some info), Except.ok rs, Except.ok m, Except.ok n⟩).total_stars
      = some ((rs.map repoStars).sum)
    ∧ (fetch_user_stats u
        ⟨Except.ok (some info), Except.ok rs, Except.ok m, Except.ok n⟩).total_repos
      = some rs.length
    ∧ (fetch_user_stats u
        ⟨Except.ok (some info), Except.ok rs, Except.ok m, Except.ok n⟩).repositories
      = some rs
    ∧ (fetch_user_stats u
        ⟨Except.ok (some info), Except.ok rs', Except.ok m, Except.ok n⟩).total_stars
      = (fetch_user_stats u
        ⟨Except.ok (some info), Except.ok rs, Except.ok m, Except.ok n⟩).total_stars := by
  refine ⟨rfl, rfl, rfl, ?_⟩
  show some ((rs'.map repoStars).sum) = some ((rs.map repoStars).sum)
  exact congrArg some ((hperm.map repoStars).sum_eq.symm)

/-- C9 (witness) — concrete snapshot `[3 stars, 5 stars]` and its swap both
aggregate to 8 total stars and 2 repos. -/
theorem fetch_user_stats_snapshot_sums_witness :
    (fetch_user_stats "octo"
        ⟨Except.ok (some ⟨"octo"⟩), Except.ok [⟨some 3⟩, ⟨some 5⟩],
         Except.ok 1, Except.ok 2⟩).total_stars = some 8
    ∧ (fetch_user_stats "octo"
        ⟨Except.ok (some ⟨"octo"⟩), Except.ok [⟨some 5⟩, ⟨some 3⟩],
         Except.ok 1, Except.ok 2⟩).total_stars = some 8
    ∧ (fetch_user_stats "octo"
        ⟨Except.ok (some ⟨"octo"⟩), Except.ok [⟨some 3⟩, ⟨some 5⟩],
         Except.ok 1, Except.ok 2⟩).total_repos = some 2 := by
  have h := fetch_user_stats_snapshot_sums "octo" ⟨"octo"⟩
    [⟨some 3⟩, ⟨some 5⟩] [⟨some 5⟩, ⟨some 3⟩] 1 2 (by decide)
  refine ⟨by rw [h.1]; rfl, by rw [h.2.2.2, h.1]; rfl, by rw [h.2.1]; rfl⟩

/-! ### Ranking (`cogs/roles.py`, `update_github_roles`)

`user_stats.sort(key=lambda x: x[2].get("total_stars", 0), reverse=True)` is
Python's stable sort with a reversed key comparison: an element precedes
another exactly when its key is larger, or the keys are equal and it came
first in the input. `sort_desc_by` is that sort. -/

/-- Stable descending insertion: `x`, which precedes all of `l` in the input
order, goes before the first element whose key is not larger than its own. -/
def insert_desc_by {α : Type} (key : α → Nat) (x : α) : List α → List α
  | [] => [x]
  | y :: ys => if key y ≤ key x then x :: y :: ys else y :: insert_desc_by key x ys

/-- Stable descending sort by `key` (extensionally the Python
`sort(key=..., reverse=True)`). -/
def sort_desc_by {α : Type} (key : α → Nat) : List α → List α
  | [] => []
  | x :: xs => insert_desc_by key x (sort_desc_by key xs)

theorem insert_desc_by_perm {α : Type} (key : α → Nat) (x : α) (l : List α) :
    (insert_desc_by key x l).Perm (x :: l) := by
  induction l with
  | nil => exact List.Perm.refl _
  | cons y ys ih =>
    by_cases h : key y ≤ key x
    · simp [insert_desc_by, h]
    · simp only [insert_desc_by, if_neg h]
      exact (ih.cons y).trans (List.Perm.swap x y ys)

theorem sort_desc_by_perm {α : Type} (key : α → Nat) (l : List α) :
    (sort_desc_by key l).Perm l := by
  induction l with
  | nil => exact List.Perm.refl _
  | cons x xs ih =>
    exact (insert_desc_by_perm key x (sort_desc_by key xs)).trans (ih.cons x)

theorem mem_insert_desc_by {α : Type} {key : α → Nat} {x a : α} {l : List α} :
    a ∈ insert_desc_by key x l ↔ a = x ∨ a ∈ l :=
  ⟨fun h => List.mem_cons.mp ((insert_desc_by_perm key x l).mem_iff.mp h),
   fun h => (insert_desc_by_perm key x l).mem_iff.mpr (List.mem_cons.mpr h)⟩

theorem pairwise_insert_desc_by {α : Type} {key : α → Nat} {s : α → α → Prop}
    {x : α} {l : List α}
    (h1 : ∀ y ∈ l, key y ≤ key x → s x y)
    (h2 : ∀ y ∈ l, key x < key y → s y x)
    (hmono : ∀ a b, s a b → key b ≤ key a)
    (hl : l.Pairwise s) :
    (insert_desc_by key x l).Pairwise s := by
  induction l with
  | nil => simp [insert_desc_by]
  | cons y ys ih =>
    rcases List.pairwise_cons.mp hl with ⟨hy, hys⟩
    by_cases h : key y ≤ key x
    · simp only [insert_desc_by, if_pos h]
      refine List.pairwise_cons.mpr ⟨?_, hl⟩
      intro z hz
      rcases List.mem_cons.mp hz with heq | hz
      · exact heq ▸ h1 y (by simp) h
      · exact h1 z (by simp [hz]) (Nat.le_trans (hmono y z (hy z hz)) h)
    · simp only [insert_desc_by, if_neg h]
      refine List.pairwise_cons.mpr ⟨?_, ?_⟩
      · intro z hz
        rcases mem_insert_desc_by.mp hz with rfl | hz
        · exact h2 y (by simp) (Nat.lt_of_not_le h)
        · exact hy z hz
      · exact ih (fun z hz hk => h1 z (by simp [hz]) hk)
          (fun z hz hk => h2 z (by simp [hz]) hk) hys

theorem sort_desc_by_sorted {α : Type} (key : α → Nat) (l : List α) :
    (sort_desc_by key l).Pairwise (fun a b => key b ≤ key a) := by
  induction l with
  | nil => simp [sort_desc_by]
  | cons x xs ih =>
    refine pairwise_insert_desc_by (fun y _ hk => hk) ?_ (fun a b h => h) ih
    exact fun y _ hk => Nat.le_of_lt hk

/-- Stability, via index annotation: if the input's first components are
strictly increasing (as in `l.enum`), the sorted output is pairwise ordered
by strictly-larger key, or equal key and smaller original index. -/
theorem sort_desc_by_stable {α : Type} (key : α → Nat) (pl : List (Nat × α))
    (hidx : pl.Pairwise (fun a b => a.1 < b.1)) :
    (sort_desc_by (fun p => key p.2) pl).Pairwise
      (fun a b => key b.2 < key a.2 ∨ (key a.2 = key b.2 ∧ a.1 < b.1)) := by
  induction pl with
  | nil => simp [sort_desc_by]
  | cons x xs ih =>
    rcases List.pairwise_cons.mp hidx with ⟨hx, hxs⟩
    refine pairwise_insert_desc_by ?_ ?_ ?_ (ih hxs)
    · intro y hy hk
      rcases Nat.lt_or_ge (key y.2) (key x.2) with h | h
      · exact Or.inl h
      · exact Or.inr ⟨Nat.le_antisymm h hk, hx y ((sort_desc_by_perm _ xs).mem_iff.mp hy)⟩
    · exact fun y _ hk => Or.inl hk
    · rintro a b (h | ⟨h, _⟩)
      · exact Nat.le_of_lt h
      · exact Nat.le_of_eq h.symm

/-- Dropping annotations commutes with the sort: `map Prod.snd` of the index-annotated sort: sorting the
annotated list and dropping the annotations is the plain sort. -/
theorem sort_desc_by_enum_map_snd {α : Type} (key : α → Nat) (pl : List (Nat × α)) :
    (sort_desc_by (fun p => key p.2) pl).map Prod.snd = sort_desc_by key (pl.map Prod.snd) := by
  have hins : ∀ (p : Nat × α) (ql : List (Nat × α)),
      (insert_desc_by (fun q => key q.2) p ql).map Prod.snd
        = insert_desc_by key p.2 (ql.map Prod.snd) := by
    intro p ql
    induction ql with
    | nil => rfl
    | cons y ys ih =>
      by_cases h : key y.2 ≤ key p.2
      · simp [insert_desc_by, h]
      · simp [insert_desc_by, h, ih]
  induction pl with
  | nil => rfl
  | cons x xs ih => simp [sort_desc_by, hins, ih]

theorem pairwise_fst_lt_enumFrom {α : Type} (l : List α) :
    ∀ n : Nat, (List.enumFrom n l).Pairwise (fun a b => a.1 < b.1) := by
  induction l with
  | nil => intro n; simp
  | cons x xs ih =>
    intro n
    refine List.pairwise_cons.mpr ⟨?_, ih (n + 1)⟩
    rintro ⟨i, a⟩ hmem
    exact Nat.lt_of_succ_le (List.mem_enumFrom hmem).1

/-- The triples `(discord_id, github_username, stats)` accumulated by
`update_github_roles`. -/
abbrev LinkedStat := Nat × String × StatsRecord

/-- The sort key `x[2].get("total_stars", 0)` of `update_github_roles`. -/
def stat_stars (x : LinkedStat) : Nat := x.2.2.total_stars.getD 0

/-- The call `user_stats.sort(key=lambda x: x[2].get("total_stars", 0), reverse=True)`. -/
def rank_user_stats (l : List LinkedStat) : List LinkedStat :=
  sort_desc_by stat_stars l

/-- Spec scenario entry A: 10 stars, linked first. -/
def entryA : LinkedStat := (1, "A", { username := "A", total_stars := some 10 })

/-- Spec scenario entry B: 50 stars, linked second. -/
def entryB : LinkedStat := (2, "B", { username := "B", total_stars := some 50 })

/-- Spec scenario entry C: 50 stars, linked third. -/
def entryC : LinkedStat := (3, "C", { username := "C", total_stars := some 50 })

/-- C5 — ranking is a stable descending sort by `total_stars`: the ranked
output is a permutation of the input, is sorted with descending star counts,
coincides with the index-annotated sort (whose output is pairwise
strictly-larger-key-or-equal-key-and-earlier-input-index, i.e. ties keep
input order, with no secondary key), and on the spec's scenario
`[A(10), B(50), C(50)]` it ranks `[B, C, A]`. Fixed-size prefixes of this
ranked list are what the role-assignment (`take 3`) and display
(`take 10`/`take 15`) paths consume. -/
theorem ranking_stable_descending (l : List LinkedStat) :
    (rank_user_stats l).Perm l
    ∧ (rank_user_stats l).Pairwise (fun a b => stat_stars b ≤ stat_stars a)
    ∧ (sort_desc_by (fun p => stat_stars p.2) l.enum).map Prod.snd = rank_user_stats l
    ∧ (sort_desc_by (fun p => stat_stars p.2) l.enum).Pairwise
        (fun a b => stat_stars b.2 < stat_stars a.2
          ∨ (stat_stars a.2 = stat_stars b.2 ∧ a.1 < b.1))
    ∧ rank_user_stats [entryA, entryB, entryC] = [entryB, entryC, entryA] := by
  refine ⟨sort_desc_by_perm _ l, sort_desc_by_sorted _ l, ?_, ?_, ?_⟩
  · rw [sort_desc_by_enum_map_snd, List.enum_map_snd]; rfl
  · exact sort_desc_by_stable stat_stars l.enum (pairwise_fst_lt_enumFrom l 0)
  · decide

/-! ### Role reconciliation (`cogs/roles.py`) -/

/-- The slice `user_stats[:3]` projected to discord ids — the new top 3. -/
def top3_ids (user_stats : List LinkedStat) : List Nat :=
  (user_stats.take 3).map (fun x => x.1)

/-- The removal pass of `assign_top_contributor_roles`: the loop
`for member in guild.members: if top_role in member.roles: remove` — every
present guild member currently holding the role has it removed. -/
def top_role_removals (members : List Nat) (holders : Finset Nat) : List Nat :=
  members.filter (fun m => decide (m ∈ holders))

/-- The addition pass of `assign_top_contributor_roles`: each of the top 3
ids that `guild.get_member` resolves to a present member gets the role. -/
def top_role_additions (members : List Nat) (user_stats : List LinkedStat) : List Nat :=
  (top3_ids user_stats).filter (fun d => decide (d ∈ members))

/-- Embedding of `assign_top_contributor_roles` as a transformer of the role's holder
set: apply the removal pass, then the addition pass. -/
def assign_top_contributor_roles (members : List Nat) (user_stats : List LinkedStat)
    (holders : Finset Nat) : Finset Nat :=
  (holders \ (top_role_removals members holders).toFinset)
    ∪ (top_role_additions members user_stats).toFinset

/-- The threshold test of `assign_open_source_roles`:
`stars >= 50 or repos >= 5`, with `stats.get(..., 0)` defaults. -/
def qualifies_open_source (stats : StatsRecord) : Bool :=
  decide (50 ≤ stats.total_stars.getD 0) || decide (5 ≤ stats.total_repos.getD 0)

/-- Embedding of `assign_open_source_roles` as a transformer of the role's holder set:
walk `user_stats` in order; each entry resolvable to a present member has
the role added when it qualifies and removed otherwise; unresolvable
entries are skipped. -/
def assign_open_source_roles (members : List Nat) (user_stats : List LinkedStat)
    (holders : Finset Nat) : Finset Nat :=
  user_stats.foldl
    (fun h x =>
      if x.1 ∈ members then
        if qualifies_open_source x.2.2 then insert x.1 h else h.erase x.1
      else h)
    holders

/-- C6 — the claim's "minimal delta" is false on the code: the removal pass
strips the role from every current holder, including holders that remain in
the new top 3. With guild members `[1, 2]`, holders `{1, 2}` and new top 3
`[1]`, the claim predicts the removal set `{2}`, but the code removes the
role from both 1 and 2 (and then re-adds it to 1). -/
theorem top_role_minimal_delta_cex :
    ¬ ((top_role_removals [1, 2] ({1, 2} : Finset Nat)).toFinset
        = ({1, 2} : Finset Nat) \ (top3_ids [(1, "a", { username := "a" })]).toFinset) := by
  decide

/-- C6 (amended) — reconciliation is full-replace, not a minimal delta: the
removal pass hits exactly the present guild members currently holding the
role (whether or not they are in the new top 3), the addition pass hits
exactly the new top-3 ids resolvable to present members, and — when every
holder is a present member — the resulting holder set equals the resolvable
new top 3, which is exactly the end state the minimal add/remove delta
would have produced. -/
theorem top_role_full_replace (members : List Nat) (user_stats : List LinkedStat)
    (holders : Finset Nat) (hsub : holders ⊆ members.toFinset) :
    (∀ m, m ∈ top_role_removals members holders ↔ m ∈ members ∧ m ∈ holders)
    ∧ (∀ d, d ∈ top_role_additions members user_stats
        ↔ d ∈ top3_ids user_stats ∧ d ∈ members)
    ∧ assign_top_contributor_roles members user_stats holders
        = (top_role_additions members user_stats).toFinset
    ∧ ((holders \ (holders \ (top_role_additions members user_stats).toFinset))
        ∪ ((top_role_additions members user_stats).toFinset \ holders))
        = assign_top_contributor_roles members user_stats holders := by
  have hrem : ∀ m, m ∈ top_role_removals members holders ↔ m ∈ members ∧ m ∈ holders := by
    intro m; simp [top_role_removals, List.mem_filter]
  have hadd : ∀ d, d ∈ top_role_additions members user_stats
      ↔ d ∈ top3_ids user_stats ∧ d ∈ members := by
    intro d; simp [top_role_additions, List.mem_filter]
  have hmain : assign_top_contributor_roles members user_stats holders
      = (top_role_additions members user_stats).toFinset := by
    ext m
    simp only [assign_top_contributor_roles, Finset.mem_union, Finset.mem_sdiff,
      List.mem_toFinset, hrem]
    constructor
    · rintro (⟨hm, hn⟩ | hm)
      · exact absurd ⟨List.mem_toFinset.mp (hsub hm), hm⟩ hn
      · exact hm
    · exact fun hm => Or.inr hm
  refine ⟨hrem, hadd, hmain, ?_⟩
  rw [hmain]
  ext m
  simp only [Finset.mem_union, Finset.mem_sdiff]
  tauto

/-- C6 (witness) — members `[1, 2]`, holders `{1, 2}`, new top 3 `[1]`: the
removal pass hits both holders, the addition pass hits 1, and the final
holder set is `{1}`. -/
theorem top_role_full_replace_witness :
    (1 ∈ top_role_removals [1, 2] ({1, 2} : Finset Nat)
      ↔ 1 ∈ ([1, 2] : List Nat) ∧ 1 ∈ ({1, 2} : Finset Nat))
    ∧ assign_top_contributor_roles [1, 2] [(1, "a", { username := "a" })] {1, 2}
        = (top_role_additions [1, 2] [(1, "a", { username := "a" })]).toFinset := by
  have h := top_role_full_replace [1, 2] [(1, "a", { username := "a" })] {1, 2} (by decide)
  exact ⟨h.1 1, h.2.2.1⟩

/-- The decision the `assign_open_source_roles` loop leaves in force for
discord id `d`: `some b` when `user_stats` has an entry for `d` resolvable
in `members` (the last such entry decides, matching the sequential loop),
`none` when the loop never touches `d`. -/
def open_source_outcome (members : List Nat) (user_stats : List LinkedStat)
    (d : Nat) : Option Bool :=
  match user_stats with
  | [] => none
  | x :: xs =>
    match open_source_outcome members xs d with
    | some b => some b
    | none =>
      if x.1 = d ∧ x.1 ∈ members then some (qualifies_open_source x.2.2) else none

theorem mem_assign_open_source (members : List Nat) (user_stats : List LinkedStat)
    (holders : Finset Nat) (d : Nat) :
    d ∈ assign_open_source_roles members user_stats holders
      ↔ (match open_source_outcome members user_stats d with
         | some b => b = true
         | none => d ∈ holders) := by
  induction user_stats generalizing holders with
  | nil => exact Iff.rfl
  | cons x xs ih =>
    show d ∈ assign_open_source_roles members xs
        (if x.1 ∈ members then
          if qualifies_open_source x.2.2 then insert x.1 holders else holders.erase x.1
         else holders) ↔ _
    rw [ih]
    show _ ↔ (match (match open_source_outcome members xs d with
        | some b => some b
        | none =>
          if x.1 = d ∧ x.1 ∈ members then some (qualifies_open_source x.2.2) else none) with
       | some b => b = true
       | none => d ∈ holders)
    cases hoc : open_source_outcome members xs d with
    | some b => simp
    | none =>
      simp only
      by_cases hd : x.1 = d ∧ x.1 ∈ members
      · obtain ⟨hd1, hd2⟩ := hd
        subst hd1
        by_cases hq : qualifies_open_source x.2.2
        · simp [hq, hd2]
        · simp [hq, hd2, Finset.mem_erase]
      · rw [if_neg hd]
        by_cases hm : x.1 ∈ members
        · have hne : x.1 ≠ d := fun hc => hd ⟨hc, hm⟩
          rw [if_pos hm]
          by_cases hq : qualifies_open_source x.2.2
          · simp [hq, Finset.mem_insert, (Ne.symm hne)]
          · simp [hq, Finset.mem_erase, (Ne.symm hne)]
        · rw [if_neg hm]

theorem open_source_outcome_eq_none (members : List Nat) (d : Nat) :
    ∀ (user_stats : List LinkedStat), (∀ x ∈ user_stats, x.1 ≠ d) →
      open_source_outcome members user_stats d = none
  | [], _ => rfl
  | x :: xs, h => by
    have hxs := open_source_outcome_eq_none members d xs (fun y hy => h y (by simp [hy]))
    have hx : x.1 ≠ d := h x (by simp)
    simp [open_source_outcome, hxs, hx]

theorem open_source_outcome_eq_some (members : List Nat) (d : Nat) (u : String)
    (s : StatsRecord) :
    ∀ (user_stats : List LinkedStat), (d, u, s) ∈ user_stats →
      (user_stats.map (fun x => x.1)).Nodup → d ∈ members →
      open_source_outcome members user_stats d = some (qualifies_open_source s)
  | [], hmem, _, _ => absurd hmem (by simp)
  | x :: xs, hmem, hnodup, hres => by
    rcases List.mem_cons.mp hmem with heq | hmem'
    · have hx1 : x.1 = d := by rw [← heq]
      have hxs : ∀ y ∈ xs, y.1 ≠ d := by
        intro y hy hc
        have hmm : y.1 ∈ xs.map (fun z => z.1) := List.mem_map_of_mem (fun z => z.1) hy
        rw [hc, ← hx1] at hmm
        exact (List.nodup_cons.mp (by simpa using hnodup)).1 hmm
      have hnone := open_source_outcome_eq_none members d xs hxs
      rw [← heq]
      simp [open_source_outcome, hnone, hres]
    · have hsome := open_source_outcome_eq_some members d u s xs hmem'
        (List.nodup_cons.mp (by simpa using hnodup)).2 hres
      simp [open_source_outcome, hsome]

/-- C7 — threshold-role predicate: a linked identity `(d, u, s)` resolvable
to a present guild member holds the contributor role after reconciliation
iff `total_stars ≥ 50` or `total_repos ≥ 5` (fields read with default 0),
independently of the prior holder set; and on the spec's scenario records,
`total_repos = 5, total_stars = 0` qualifies while
`total_repos = 4, total_stars = 49` does not. -/
theorem threshold_role_predicate (members : List Nat) (user_stats : List LinkedStat)
    (holders : Finset Nat) (d : Nat) (u : String) (s : StatsRecord)
    (hmem : (d, u, s) ∈ user_stats)
    (hnodup : (user_stats.map (fun x => x.1)).Nodup)
    (hres : d ∈ members) :
    (d ∈ assign_open_source_roles members user_stats holders
      ↔ (50 ≤ s.total_stars.getD 0 ∨ 5 ≤ s.total_repos.getD 0))
    ∧ qualifies_open_source
        { username := "q", total_stars := some 0, total_repos := some 5 } = true
    ∧ qualifies_open_source
        { username := "q", total_stars := some 49, total_repos := some 4 } = false := by
  refine ⟨?_, by decide, by decide⟩
  rw [mem_assign_open_source,
    open_source_outcome_eq_some members d u s user_stats hmem hnodup hres]
  simp [qualifies_open_source]

/-- C7 (witness) — member 1 linked with 60 stars holds the contributor role
after reconciliation starting from an empty holder set; the two scenario
records evaluate as the spec says. -/
theorem threshold_role_predicate_witness :
    1 ∈ assign_open_source_roles [1]
        [(1, "u", { username := "u", total_stars := some 60 })] ∅
    ∧ qualifies_open_source
        { username := "q", total_stars := some 0, total_repos := some 5 } = true
    ∧ qualifies_open_source
        { username := "q", total_stars := some 49, total_repos := some 4 } = false := by
  have h := threshold_role_predicate [1]
    [(1, "u", { username := "u", total_stars := some 60 })] ∅ 1 "u"
    { username := "u", total_stars := some 60 } (by simp) (by simp) (by simp)
  exact ⟨h.1.mpr (Or.inl (by decide)), h.2.1, h.2.2⟩

/-- C8 — role reconciliation is idempotent: with unchanged stats, running
the top-3 pass twice leaves the holder set of the second run equal to that
of the first, and likewise for the threshold-role pass. -/
theorem role_reconciliation_idempotent (members : List Nat)
    (user_stats : List LinkedStat) (top_holders os_holders : Finset Nat) :
    assign_top_contributor_roles members user_stats
        (assign_top_contributor_roles members user_stats top_holders)
      = assign_top_contributor_roles members user_stats top_holders
    ∧ assign_open_source_roles members user_stats
        (assign_open_source_roles members user_stats os_holders)
      = assign_open_source_roles members user_stats os_holders := by
  constructor
  · ext m
    simp only [assign_top_contributor_roles, top_role_removals, top_role_additions,
      Finset.mem_union, Finset.mem_sdiff, List.mem_toFinset, List.mem_filter,
      decide_eq_true_eq]
    tauto
  · ext d
    rw [mem_assign_open_source, mem_assign_open_source]
    cases hoc : open_source_outcome members user_stats d <;> rfl

/-! ### Error records in ranking and reconciliation (C10) -/

/-- In a descending-sorted list, the elements with positive key are exactly
the prefix of length equal to their number. -/
theorem sorted_take_filter_pos {α : Type} (key : α → Nat) :
    ∀ (r : List α), r.Pairwise (fun a b => key b ≤ key a) →
      r.take ((r.filter (fun x => decide (0 < key x))).length)
        = r.filter (fun x => decide (0 < key x))
  | [], _ => rfl
  | a :: as, hp => by
    rcases List.pairwise_cons.mp hp with ⟨ha, has⟩
    by_cases h : 0 < key a
    · have hf : (a :: as).filter (fun x => decide (0 < key x))
          = a :: as.filter (fun x => decide (0 < key x)) := by
        simp [List.filter_cons, h]
      rw [hf, List.length_cons, List.take_succ_cons, sorted_take_filter_pos key as has]
    · have hz : key a = 0 := Nat.eq_zero_of_not_pos h
      have hnil : (a :: as).filter (fun x => decide (0 < key x)) = [] := by
        rw [List.filter_eq_nil_iff]
        intro x hx
        rcases List.mem_cons.mp hx with heq | hx
        · subst heq; simp [h]
        · have hle : key x ≤ key a := ha x hx
          have : key x = 0 := Nat.le_zero.mp (hz ▸ hle)
          simp [this]
      rw [hnil]
      rfl

/-- In a descending-sorted list holding at least three positive-key
elements, the first three elements all have positive key. -/
theorem sorted_take3_pos {α : Type} (key : α → Nat) (r : List α)
    (hp : r.Pairwise (fun a b => key b ≤ key a))
    (hcount : 3 ≤ (r.filter (fun x => decide (0 < key x))).length) :
    ∀ x ∈ r.take 3, 0 < key x := by
  intro x hx
  have h1 : r.take 3
      = (r.take ((r.filter (fun y => decide (0 < key y))).length)).take 3 := by
    rw [List.take_take, Nat.min_eq_left hcount]
  rw [h1, sorted_take_filter_pos key r hp] at hx
  have hxf := List.take_subset 3 _ hx
  simpa using (List.mem_filter.mp hxf).2

/-- C10 — the claim's unconditional "excluded from the top-N role" is false
on the code: with a single linked identity whose stats fetch produced an
error record, `user_stats[:3]` is the whole one-element ranked list, so the
identity receives the exclusive GitHub Top 3 role even though its record is
an error record. -/
theorem error_record_gets_top_role_cex :
    1 ∈ assign_top_contributor_roles [1]
        (rank_user_stats [(1, "ghost",
          fetch_user_stats "ghost"
            ⟨Except.ok none, Except.ok [], Except.ok 0, Except.ok 0⟩)]) ∅
    ∧ (fetch_user_stats "ghost"
        ⟨Except.ok none, Except.ok [], Except.ok 0, Except.ok 0⟩).error.isSome := by
  decide

/-- C10 (amended) — an error record (no `total_stars`/`total_repos` fields)
stays in the batch and is treated as 0 stars and 0 repos: its sort key is 0;
it remains an entry of the ranked list; every entry ranked after it has 0
stars, so every positive-star identity ranks above it; whenever the batch
holds at least three positive-star identities it is excluded from the first
three ranked entries and its id from the top-3 id list; and if it resolves
to a present member the contributor role is removed (it is not in the
threshold role's holder set after reconciliation), whatever the prior
holder set. -/
theorem error_record_treated_as_zero (l : List LinkedStat) (d : Nat) (u msg : String)
    (members : List Nat) (holders : Finset Nat) (pre post : List LinkedStat)
    (hmem : (d, u, error_record u msg) ∈ l)
    (hnodup : (l.map (fun x => x.1)).Nodup)
    (hres : d ∈ members)
    (hsplit : rank_user_stats l = pre ++ (d, u, error_record u msg) :: post)
    (hcount : 3 ≤ (l.filter (fun x => decide (0 < stat_stars x))).length) :
    stat_stars (d, u, error_record u msg) = 0
    ∧ (d, u, error_record u msg) ∈ rank_user_stats l
    ∧ (∀ x ∈ post, stat_stars x = 0)
    ∧ (d, u, error_record u msg) ∉ (rank_user_stats l).take 3
    ∧ d ∉ top3_ids (rank_user_stats l)
    ∧ d ∉ assign_open_source_roles members (rank_user_stats l) holders := by
  have hperm : (rank_user_stats l).Perm l := sort_desc_by_perm stat_stars l
  have hmem_r : (d, u, error_record u msg) ∈ rank_user_stats l := hperm.mem_iff.mpr hmem
  have hsort : (rank_user_stats l).Pairwise (fun a b => stat_stars b ≤ stat_stars a) :=
    sort_desc_by_sorted stat_stars l
  have hcount_r : 3 ≤ ((rank_user_stats l).filter
      (fun x => decide (0 < stat_stars x))).length := by
    rw [(hperm.filter (fun x => decide (0 < stat_stars x))).length_eq]
    exact hcount
  have htake := sorted_take3_pos stat_stars (rank_user_stats l) hsort hcount_r
  refine ⟨rfl, hmem_r, ?_, ?_, ?_, ?_⟩
  · intro x hx
    rw [hsplit] at hsort
    have h2 := (List.pairwise_append.mp hsort).2.1
    have h3 := (List.pairwise_cons.mp h2).1 x hx
    exact Nat.le_zero.mp h3
  · intro hin
    exact absurd (htake _ hin) (by simp [stat_stars, error_record])
  · intro hin
    obtain ⟨y, hy, hy1⟩ := List.mem_map.mp hin
    have hyl : y ∈ l := hperm.mem_iff.mp (List.take_subset 3 _ hy)
    have hyeq : y = (d, u, error_record u msg) :=
      List.inj_on_of_nodup_map hnodup hyl hmem (by rw [hy1])
    have := htake y hy
    rw [hyeq] at this
    exact absurd this (by simp [stat_stars, error_record])
  · intro hin
    have hnodup_r : ((rank_user_stats l).map (fun x => x.1)).Nodup :=
      ((hperm.map (fun x => x.1)).nodup_iff).mpr hnodup
    rw [mem_assign_open_source,
      open_source_outcome_eq_some members d u (error_record u msg)
        (rank_user_stats l) hmem_r hnodup_r hres] at hin
    simp [qualifies_open_source, error_record] at hin

/-- The concrete batch for the C10 witness: three positive-star identities
and one error record. -/
def exampleBatch : List LinkedStat :=
  [(1, "a", { username := "a", total_stars := some 10 }),
   (2, "b", { username := "b", total_stars := some 20 }),
   (3, "c", { username := "c", total_stars := some 30 }),
   (4, "g", error_record "g" "User not found")]

/-- C10 (witness) — on `exampleBatch`, identity 4 (the error record) is not
among the top-3 ids and does not hold the contributor role after
reconciliation. -/
theorem error_record_treated_as_zero_witness :
    4 ∉ top3_ids (rank_user_stats exampleBatch)
    ∧ 4 ∉ assign_open_source_roles [1, 2, 3, 4] (rank_user_stats exampleBatch) ∅ := by
  have h := error_record_treated_as_zero exampleBatch 4 "g" "User not found"
    [1, 2, 3, 4] ∅
    [(3, "c", { username := "c", total_stars := some 30 }),
     (2, "b", { username := "b", total_stars := some 20 }),
     (1, "a", { username := "a", total_stars := some 10 })] []
    (by decide) (by decide) (by decide) (by decide) (by decide)
  exact ⟨h.2.2.2.2.1, h.2.2.2.2.2⟩

end OSDCBot
